import Mathlib

/-!
Verification of the branch-synchronization core of the `contribute-now`
git-workflow CLI, shallowly embedded in Lean 4.

External git/gh subprocess calls are modelled as environments: each
query's result (already in the shape the TypeScript wrapper returns,
e.g. `Option String` for "trimmed stdout, or null on nonzero exit")
is a field of an environment structure, and the decision procedures of
the source are translated as pure functions of those environments.
-/

namespace ContributeNow

/-! ## Data model (`src/types.ts`) -/

/-- `GitResult` from `src/types.ts`: exit code and raw output of one
subprocess invocation. -/
structure GitResult where
  exitCode : Int
  stdout : String
  stderr : String
  deriving Repr, DecidableEq

/-- `WorkflowMode` from `src/types.ts`. -/
inductive WorkflowMode where
  | cleanFlow
  | githubFlow
  | gitFlow
  deriving Repr, DecidableEq

/-- The `role` field of `ContributeConfig`. -/
inductive Role where
  | maintainer
  | contributor
  deriving Repr, DecidableEq

/-- `ContributeConfig` from `src/types.ts` (the fields the sync core
reads; `devBranch?` is optional, hence `Option String`). -/
structure ContributeConfig where
  workflow : WorkflowMode
  role : Role
  mainBranch : String
  devBranch : Option String
  upstream : String
  origin : String
  deriving Repr, DecidableEq

/-! ## WorkflowResolver (`src/utils/workflow.ts`) -/

/-- `getBaseBranch`: base branch feature branches are created from.
`config.devBranch ?? 'dev'` is nullish coalescing, i.e. `Option.getD`. -/
def getBaseBranch (config : ContributeConfig) : String :=
  match config.workflow with
  | .cleanFlow | .gitFlow => config.devBranch.getD "dev"
  | .githubFlow => config.mainBranch

/-- `hasDevBranch`: whether the workflow uses a separate dev branch. -/
def hasDevBranch (workflow : WorkflowMode) : Bool :=
  workflow == .cleanFlow || workflow == .gitFlow

/-- Sync strategy tag of `getSyncSource`'s result. -/
inductive SyncStrategy where
  | pull
  | reset
  deriving Repr, DecidableEq

/-- Result shape of `getSyncSource`. -/
structure SyncSource where
  remote : String
  ref : String
  strategy : SyncStrategy
  deriving Repr, DecidableEq

/-- `getSyncSource`: remote ref the base branch is synced against. -/
def getSyncSource (config : ContributeConfig) : SyncSource :=
  let devBranch := config.devBranch.getD "dev"
  match config.workflow with
  | .cleanFlow =>
      if config.role = .contributor then
        ⟨config.upstream, config.upstream ++ "/" ++ devBranch, .pull⟩
      else
        ⟨config.origin, config.origin ++ "/" ++ devBranch, .pull⟩
  | .githubFlow =>
      if config.role = .contributor then
        ⟨config.upstream, config.upstream ++ "/" ++ config.mainBranch, .pull⟩
      else
        ⟨config.origin, config.origin ++ "/" ++ config.mainBranch, .pull⟩
  | .gitFlow =>
      if config.role = .contributor then
        ⟨config.upstream, config.upstream ++ "/" ++ devBranch, .pull⟩
      else
        ⟨config.origin, config.origin ++ "/" ++ devBranch, .pull⟩

/-- `getProtectedBranches`: exact branch names that must never be
deleted.  The JS test `hasDevBranch(config.workflow) && config.devBranch`
uses string truthiness, so an absent or empty `devBranch` is not added. -/
def getProtectedBranches (config : ContributeConfig) : List String :=
  match config.devBranch with
  | some d => if hasDevBranch config.workflow && d ≠ "" then
                [config.mainBranch, d]
              else
                [config.mainBranch]
  | none => [config.mainBranch]

/-- `getProtectedPrefixes`: protected branch-name prefixes per workflow. -/
def getProtectedPrefixes (config : ContributeConfig) : List String :=
  if config.workflow = .gitFlow then ["release/", "hotfix/"] else []

/-- Worker for `jsStartsWith` over character lists. -/
def listStartsWith : List Char → List Char → Bool
  | _, [] => true
  | [], _ :: _ => false
  | c :: cs, p :: ps => c = p && listStartsWith cs ps

/-- JavaScript `s.startsWith(p)`. -/
def jsStartsWith (s p : String) : Bool :=
  listStartsWith s.data p.data

/-- `isBranchProtected`: exact match against `getProtectedBranches` or
prefix match against `getProtectedPrefixes`. -/
def isBranchProtected (branch : String) (config : ContributeConfig) : Bool :=
  (getProtectedBranches config).contains branch ||
    (getProtectedPrefixes config).any (fun p => jsStartsWith branch p)

/-- Spec §3 well-formedness invariant of `WorkflowConfig`: `devBranch`
is present (a nonempty branch name) iff the workflow mode is
`clean-flow` or `git-flow`. -/
def WellFormed (config : ContributeConfig) : Prop :=
  match config.workflow with
  | .cleanFlow | .gitFlow => ∃ d, config.devBranch = some d ∧ d ≠ ""
  | .githubFlow => config.devBranch = none

/-! ## RebaseStrategyResolver (`src/utils/git.ts`, `determineRebaseStrategy`) -/

/-- Result of `determineRebaseStrategy`: `{strategy: 'plain' | 'onto';
ontoOldBase?: string}`, where `ontoOldBase` is set exactly on the
`onto` branch of the source. -/
inductive RebaseStrategy where
  | plain
  | onto (ontoOldBase : String)
  deriving Repr, DecidableEq

/-- Environment of git queries issued by `determineRebaseStrategy`.
Each field is the value the wrapper in `src/utils/git.ts` returns:
`none` stands for a nonzero exit code or empty trimmed stdout (the
wrappers return `null` in both cases), `some s` for trimmed stdout `s`. -/
structure RebaseEnv where
  /-- `getUpstreamRef()`: upstream tracking ref of the current branch. -/
  upstreamRef : Option String
  /-- `getCommitHash(ref)`: full commit hash a ref resolves to. -/
  commitHash : String → Option String
  /-- `getMergeBase(ref1, ref2)`: merge-base of two refs. -/
  mergeBase : String → String → Option String

/-- Characters after the first `/` of a list, or `none` when there is
no `/` (the `indexOf('/') === -1` case). -/
def charsAfterSlash : List Char → Option (List Char)
  | [] => none
  | '/' :: rest => some rest
  | _ :: rest => charsAfterSlash rest

/-- The branch-name extraction step of `determineRebaseStrategy`:
`upstreamRef.indexOf('/')` then `slice(slashIdx + 1)`, i.e. everything
after the first `/`, or the whole string when it has no `/`. -/
def stripRemoteSegment (upstreamRef : String) : String :=
  match charsAfterSlash upstreamRef.data with
  | none => upstreamRef
  | some rest => String.mk rest

/-- `determineRebaseStrategy(currentBranch, syncRef)`: decide between a
plain rebase and an `--onto` transplant, translated clause by clause
from `src/utils/git.ts`. -/
def determineRebaseStrategy (env : RebaseEnv) (currentBranch syncRef : String) :
    RebaseStrategy :=
  match env.upstreamRef with
  | none => .plain
  | some upstreamRef =>
    match env.commitHash upstreamRef with
    | none => .plain
    | some _ =>
      let upstreamBranchName := stripRemoteSegment upstreamRef
      if upstreamBranchName = currentBranch then .plain
      else
        let forkFromUpstream := env.mergeBase "HEAD" upstreamRef
        let forkFromSync := env.mergeBase "HEAD" syncRef
        match forkFromUpstream, forkFromSync with
        | some fu, some fs => if fu = fs then .plain else .onto fu
        | some fu, none => .onto fu
        | none, _ => .plain

/-! ## CommitGroupValidator (`src/commands/commit.ts`, group validation) -/

/-- A file-to-commit group proposed by the AI collaborator. -/
structure CommitGroup where
  files : List String
  message : String
  deriving Repr, DecidableEq

/-- The validation loop of `src/commands/commit.ts` (lines 446–456):
`group.files = group.files.filter((f) => changedSet.has(f))` for each
group, then `groups.filter((g) => g.files.length > 0)`. -/
def validateGroups (groups : List CommitGroup) (changedFiles : List String) :
    List CommitGroup :=
  let stripped := groups.map fun g =>
    { g with files := g.files.filter fun f => changedFiles.contains f }
  stripped.filter fun g => g.files.length > 0

/-- Group validation with its caller's zero-group check
(`src/commands/commit.ts` lines 457–460): if no valid group remains the
command errors out (`process.exit(1)`), modelled as `none`; no fallback
grouping is produced. -/
def runGroupValidation (groups : List CommitGroup) (changedFiles : List String) :
    Option (List CommitGroup) :=
  let validGroups := validateGroups groups changedFiles
  if validGroups.length = 0 then none else some validGroups

/-- Modelled from the spec (§4.6, the claimed validator contract
itself): step 1 drops the files of each group that are not present in
`changedFiles`, step 2 drops any group left with zero files, step 3
treats zero remaining groups as a hard failure with no fallback. This
is the reference definition the source's validator is compared with. -/
def specValidate (groups : List CommitGroup) (changedFiles : List String) :
    Option (List CommitGroup) :=
  let step1 := groups.map fun g =>
    { g with files := g.files.filter fun f => decide (f ∈ changedFiles) }
  let step2 := step1.filter fun g => !g.files.isEmpty
  if step2.isEmpty then none else some step2

/-- The partition property claimed by spec §3 for a validated grouping
response: every changed file lies in exactly one group, groups contain
only changed files, and no group is empty. -/
def GroupsPartitionChanged (groups : List CommitGroup) (changedFiles : List String) :
    Prop :=
  (∀ f ∈ changedFiles, (groups.filter fun g => g.files.contains f).length = 1) ∧
  (∀ g ∈ groups, ∀ f ∈ g.files, f ∈ changedFiles) ∧
  (∀ g ∈ groups, g.files ≠ [])

/-! ## Branch cleaning (`src/commands/clean.ts`) -/

/-- Environment of queries issued by the candidate-detection phase of
`contrib clean`. -/
structure CleanEnv where
  /-- `getMergedBranches(baseBranch)`: branches merged via real merge
  commits (`git branch --merged`). -/
  mergedBranches : List String
  /-- `getGoneBranches()`: branches whose remote tracking ref is
  `[gone]` after the prune. -/
  goneBranches : List String
  /-- `getCurrentBranch()`. -/
  currentBranch : Option String
  /-- `checkGhInstalled() && checkGhAuth()`. -/
  ghAvailable : Bool
  /-- `getMergedPRForBranch(currentBranch)` returned a merged PR. -/
  currentBranchHasMergedPR : Bool

/-- `mergedCandidates` of `clean.ts` line 200: merged branches minus
protected ones. -/
def mergedCandidates (config : ContributeConfig) (env : CleanEnv) : List String :=
  env.mergedBranches.filter fun b => !(getProtectedBranches config).contains b

/-- The filter step of `goneCandidates` (`clean.ts` lines 204–206):
gone branches minus protected branches and merged candidates. -/
def goneCandidatesBase (config : ContributeConfig) (env : CleanEnv) : List String :=
  env.goneBranches.filter fun b =>
    !(getProtectedBranches config).contains b &&
      !(mergedCandidates config env).contains b

/-- `goneCandidates` of `clean.ts` lines 204–226: the filter step, plus
the current branch pushed when the gh query reports its PR as merged
(and it is not protected or already a candidate). -/
def goneCandidates (config : ContributeConfig) (env : CleanEnv) : List String :=
  let gc := goneCandidatesBase config env
  match env.currentBranch with
  | none => gc
  | some cur =>
      if !(getProtectedBranches config).contains cur &&
          !(mergedCandidates config env).contains cur &&
          !gc.contains cur &&
          env.ghAvailable && env.currentBranchHasMergedPR then
        gc ++ [cur]
      else
        gc

/-- Which git delete command `contrib clean` issues for a candidate:
`deleteBranch` (`git branch -d`) or `forceDeleteBranch` (`git branch -D`). -/
inductive DeleteMode where
  | plain
  | force
  deriving Repr, DecidableEq

/-- The deletion commands `contrib clean` issues once the user confirms
(lines 243–305 of `clean.ts`): a plain `-d` delete for every merged
candidate and a force `-D` delete for every gone/PR-merged candidate. -/
def deletionPlan (config : ContributeConfig) (env : CleanEnv) :
    List (String × DeleteMode) :=
  (mergedCandidates config env).map (fun b => (b, DeleteMode.plain)) ++
    (goneCandidates config env).map (fun b => (b, DeleteMode.force))

/-! ## GitStateInspector (`src/utils/git.ts`, `checkGitState` /
`assertCleanGitState`) -/

/-- An in-progress git operation as detected by `checkGitState`. -/
inductive InProgressOp where
  | rebase
  | merge
  | cherryPick
  | bisect
  deriving Repr, DecidableEq

/-- Filesystem environment of `checkGitState`: the `--git-dir` query and
the `existsSync` probes under it, plus the `isShallowRepo()` query used
by `assertCleanGitState`. -/
structure GitFsEnv where
  /-- `getGitDir()`: path of the `.git` dir, or `none` on failure. -/
  gitDir : Option String
  /-- `existsSync(path)` for paths under the git dir. -/
  fileExists : String → Bool
  /-- `isShallowRepo()`. -/
  shallow : Bool

/-- Result shape of `checkGitState`. -/
structure GitState where
  lockFile : Bool
  inProgressOp : Option InProgressOp
  gitDir : Option String
  deriving Repr, DecidableEq

/-- `checkGitState()`: lock-file and in-progress-operation probes under
one `getGitDir()` call, translated from `src/utils/git.ts` lines 41–63
(`join(gitDir, name)` is rendered as `gitDir ++ "/" ++ name`). -/
def checkGitState (env : GitFsEnv) : GitState :=
  match env.gitDir with
  | none => ⟨false, none, none⟩
  | some gitDir =>
    let lockFile := env.fileExists (gitDir ++ "/index.lock")
    let inProgressOp : Option InProgressOp :=
      if env.fileExists (gitDir ++ "/rebase-merge") ||
          env.fileExists (gitDir ++ "/rebase-apply") then
        some .rebase
      else if env.fileExists (gitDir ++ "/MERGE_HEAD") then
        some .merge
      else if env.fileExists (gitDir ++ "/CHERRY_PICK_HEAD") then
        some .cherryPick
      else if env.fileExists (gitDir ++ "/BISECT_LOG") then
        some .bisect
      else
        none
    ⟨lockFile, inProgressOp, some gitDir⟩

/-- Failure kind reported by `assertCleanGitState` when it exits. -/
inductive GitStateFailKind where
  | lockFile
  | inProgress (op : InProgressOp)
  deriving Repr, DecidableEq

/-- Outcome of `assertCleanGitState`: `fatal` models the
`process.exit(1)` paths, `ok warned` the fall-through (with `warned`
recording whether the non-fatal shallow-clone warning was printed).
No git mutation is issued on any path. -/
inductive AssertOutcome where
  | fatal (kind : GitStateFailKind)
  | ok (shallowWarned : Bool)
  deriving Repr, DecidableEq

/-- `assertCleanGitState(action)`: guard run before multi-step git
mutations, translated from `src/utils/git.ts` lines 90–116. -/
def assertCleanGitState (env : GitFsEnv) : AssertOutcome :=
  let st := checkGitState env
  if st.lockFile then
    .fatal .lockFile
  else
    match st.inProgressOp with
    | some op => .fatal (.inProgress op)
    | none => .ok env.shallow

/-! ## String helpers mirroring the JavaScript primitives used by
`getDivergence`, `hasUncommittedChanges` and `hasLocalWork`. -/

/-- The whitespace characters relevant to `\s` and `trim()` for git
porcelain output (space, tab, newline, carriage return). -/
def isWsChar (c : Char) : Bool :=
  c = ' ' || c = '\t' || c = '\n' || c = '\r'

/-- JavaScript `s.trim()`: strip leading and trailing whitespace. -/
def jsTrim (s : String) : String :=
  String.mk (((s.data.dropWhile isWsChar).reverse.dropWhile isWsChar).reverse)

/-- Worker for `splitWs`: `cur` is the reversed current token, `prevWs`
records whether the previous character was whitespace (a run of
whitespace produces a single separator, as with the regex `\s+`). -/
def splitWsAux : List Char → List Char → Bool → List (List Char)
  | [], cur, _ => [cur.reverse]
  | c :: rest, cur, prevWs =>
    if isWsChar c then
      if prevWs then splitWsAux rest cur true
      else cur.reverse :: splitWsAux rest [] true
    else
      splitWsAux rest (c :: cur) false

/-- JavaScript `s.split(/\s+/)`: split on maximal whitespace runs,
keeping the empty pieces a leading or trailing run produces, and
yielding `[""]` on the empty string. -/
def splitWs (s : String) : List String :=
  (splitWsAux s.data [] false).map fun cs => String.mk cs

/-- Numeric value of a decimal digit character. -/
def charDigitVal (c : Char) : Nat := c.toNat - 48

/-- Value of a list of decimal digit characters, most significant
first. -/
def digitsToNat (ds : List Char) : Nat :=
  ds.foldl (fun a c => a * 10 + charDigitVal c) 0

/-- JavaScript `Number.parseInt(s, 10)`: skip leading whitespace, read
an optional sign and then the longest decimal-digit run; `none` models
`NaN` (no digits at all). -/
def jsParseInt (s : String) : Option Int :=
  let cs := s.data.dropWhile isWsChar
  let isNeg := cs.head? == some '-'
  let hasSign := isNeg || (cs.head? == some '+')
  let ds := (if hasSign then cs.tail else cs).takeWhile Char.isDigit
  if ds.isEmpty then none
  else if isNeg then some (-(digitsToNat ds : Int))
  else some (digitsToNat ds : Int)

/-- Decimal digits of `n`, least significant first, with explicit fuel
so the definition is structurally recursive (the fuel `n + 1` used by
`natToString` always suffices). -/
def natDigitsRevFuel : Nat → Nat → List Char
  | 0, _ => []
  | fuel + 1, n =>
    if n < 10 then [Nat.digitChar n]
    else Nat.digitChar (n % 10) :: natDigitsRevFuel fuel (n / 10)

/-- Decimal rendering of a natural number, used to state what stdout of
the form `"L R"` means. -/
def natToString (n : Nat) : String :=
  String.mk (natDigitsRevFuel (n + 1) n).reverse

/-! ## DivergenceCalculator and local-work queries (`src/utils/git.ts`) -/

/-- Result shape of `getDivergence`. The counts come straight from
`Number.parseInt`, whose `NaN` outcome is modelled as `none`. -/
structure Divergence where
  ahead : Option Int
  behind : Option Int
  deriving Repr, DecidableEq

/-- `getDivergence(branch, base)` applied to the `GitResult` of its one
`rev-list --left-right --count base...branch` query: nonzero exit yields
`{ahead: 0, behind: 0}`; otherwise the trimmed stdout is split on
whitespace and `parts[0]`/`parts[1]` (defaulting to `"0"`) are parsed as
behind/ahead. -/
def getDivergence (revListResult : GitResult) : Divergence :=
  if revListResult.exitCode ≠ 0 then ⟨some 0, some 0⟩
  else
    let parts := splitWs (jsTrim revListResult.stdout)
    { behind := jsParseInt (parts.getD 0 "0"),
      ahead := jsParseInt (parts.getD 1 "0") }

/-- `hasUncommittedChanges()` applied to the `GitResult` of its
`git status --porcelain` query: nonzero exit returns `true` (safe
default), otherwise `stdout.trim().length > 0`. -/
def hasUncommittedChanges (statusResult : GitResult) : Bool :=
  if statusResult.exitCode ≠ 0 then true
  else (jsTrim statusResult.stdout).length > 0

/-- Result shape of `hasLocalWork`. `unpushedCommits` is an `Int`
because `Number.parseInt` may in principle produce a negative number;
the `|| 0` in the source turns `NaN` (and `0`) into `0`. -/
structure LocalWork where
  uncommitted : Bool
  unpushedCommits : Int
  deriving Repr, DecidableEq

/-- `hasLocalWork(remote, branch)` applied to the results of its two
queries: the `git status --porcelain` result feeding
`hasUncommittedChanges` and the `rev-list --count trackingRef..branch`
result feeding the unpushed-commit count. -/
def hasLocalWork (statusResult revListResult : GitResult) : LocalWork :=
  let uncommitted := hasUncommittedChanges statusResult
  let unpushedCommits : Int :=
    if revListResult.exitCode = 0 then
      (jsParseInt (jsTrim revListResult.stdout)).getD 0
    else 0
  ⟨uncommitted, unpushedCommits⟩

/-! ## Theorems -/

/-- C1: if the current branch has an upstream tracking ref that
resolves to a commit, the upstream's branch-local name differs from the
current branch name, `mergeBase(HEAD, upstreamRef)` exists, and it
differs from `mergeBase(HEAD, syncRef)` (or the latter does not exist),
then `determineRebaseStrategy` returns the `onto` variant with
`ontoOldBase = mergeBase(HEAD, upstreamRef)`. -/
theorem determineRebaseStrategy_onto_of_divergent_fork (env : RebaseEnv)
    (currentBranch syncRef u h fu : String)
    (hu : env.upstreamRef = some u)
    (hh : env.commitHash u = some h)
    (hname : stripRemoteSegment u ≠ currentBranch)
    (hfu : env.mergeBase "HEAD" u = some fu)
    (hdiff : env.mergeBase "HEAD" syncRef ≠ some fu) :
    determineRebaseStrategy env currentBranch syncRef = .onto fu := by
  simp only [determineRebaseStrategy, hu, hh, hfu]
  rw [if_neg hname]
  cases hs : env.mergeBase "HEAD" syncRef with
  | none => simp
  | some fs =>
      rw [hs] at hdiff
      have hne : fu ≠ fs := fun hEq => hdiff (by rw [hEq])
      simp [hne]

/-- Witness for C1: the spec's scenario — `feature/b` tracks
`origin/feature/a`, the two fork points are `C1 ≠ C2`, so the strategy
is `Onto(C1)`. -/
theorem determineRebaseStrategy_onto_witness :
    determineRebaseStrategy
      ⟨some "origin/feature/a", fun _ => some "abc123",
        fun _ r => if r = "origin/feature/a" then some "C1"
          else if r = "origin/dev" then some "C2" else none⟩
      "feature/b" "origin/dev" = .onto "C1" :=
  determineRebaseStrategy_onto_of_divergent_fork _ _ _
    "origin/feature/a" "abc123" "C1" rfl rfl (by decide) (by decide) (by decide)

/-- C2: `determineRebaseStrategy` returns `plain` (and so never `onto`)
whenever transplanting cannot be justified: no upstream tracking ref,
upstream ref not resolving to a commit, upstream's branch-local name
equal to the current branch, both merge-bases existing and equal, or
`mergeBase(HEAD, upstreamRef)` undeterminable. -/
theorem determineRebaseStrategy_plain_cases (env : RebaseEnv)
    (currentBranch syncRef : String)
    (hcase :
      env.upstreamRef = none ∨
      (∃ u, env.upstreamRef = some u ∧ env.commitHash u = none) ∨
      (∃ u, env.upstreamRef = some u ∧ stripRemoteSegment u = currentBranch) ∨
      (∃ u fu, env.upstreamRef = some u ∧ env.mergeBase "HEAD" u = some fu ∧
        env.mergeBase "HEAD" syncRef = some fu) ∨
      (∃ u, env.upstreamRef = some u ∧ env.mergeBase "HEAD" u = none)) :
    determineRebaseStrategy env currentBranch syncRef = .plain := by
  rcases hcase with hnone | ⟨u, hu, hh⟩ | ⟨u, hu, hname⟩ |
      ⟨u, fu, hu, hfu, hfs⟩ | ⟨u, hu, hfu⟩
  · simp only [determineRebaseStrategy, hnone]
  · simp only [determineRebaseStrategy, hu, hh]
  · simp only [determineRebaseStrategy, hu]
    cases env.commitHash u with
    | none => simp
    | some _ => simp [hname]
  · simp only [determineRebaseStrategy, hu]
    cases env.commitHash u with
    | none => simp
    | some _ =>
        by_cases hname : stripRemoteSegment u = currentBranch
        · simp [hname]
        · simp only [hname, if_false, hfu, hfs]
          simp
  · simp only [determineRebaseStrategy, hu]
    cases env.commitHash u with
    | none => simp
    | some _ =>
        by_cases hname : stripRemoteSegment u = currentBranch
        · simp [hname]
        · simp only [hname, if_false, hfu]

/-- Witness for C2: the spec's compatible-history scenario —
`feature/b` tracks `origin/feature/a` and both fork points agree, so
the strategy is `plain`. -/
theorem determineRebaseStrategy_plain_witness :
    determineRebaseStrategy
      ⟨some "origin/feature/a", fun _ => some "abc123", fun _ _ => some "C1"⟩
      "feature/b" "origin/dev" = .plain :=
  determineRebaseStrategy_plain_cases _ _ _
    (Or.inr (Or.inr (Or.inr (Or.inl
      ⟨"origin/feature/a", "C1", rfl, rfl, rfl⟩))))

/-- C6: for a well-formed config, a branch is protected iff it equals
`mainBranch`, or the workflow has a dev branch and it equals
`devBranch`, or it starts with a protected prefix, the prefix set being
`{"release/", "hotfix/"}` for git-flow and empty otherwise. -/
theorem isBranchProtected_iff (config : ContributeConfig) (branch : String)
    (hwf : WellFormed config) :
    isBranchProtected branch config = true ↔
      branch = config.mainBranch ∨
      (hasDevBranch config.workflow = true ∧ config.devBranch = some branch) ∨
      ∃ p ∈ (if config.workflow = WorkflowMode.gitFlow then
          ["release/", "hotfix/"] else ([] : List String)),
        jsStartsWith branch p = true := by
  obtain ⟨wf, role, main, dev, up, og⟩ := config
  cases wf <;>
    simp only [WellFormed] at hwf
  case cleanFlow =>
    obtain ⟨d, rfl, hd⟩ := hwf
    simp only [isBranchProtected, getProtectedBranches, getProtectedPrefixes,
      hasDevBranch]
    simp [hd]
    exact or_congr Iff.rfl eq_comm
  case githubFlow =>
    subst hwf
    simp [isBranchProtected, getProtectedBranches, getProtectedPrefixes,
      hasDevBranch]
  case gitFlow =>
    obtain ⟨d, rfl, hd⟩ := hwf
    simp only [isBranchProtected, getProtectedBranches, getProtectedPrefixes,
      hasDevBranch]
    simp [hd]
    rw [or_assoc]
    exact or_congr Iff.rfl (or_congr eq_comm Iff.rfl)

/-- Witness for C6: in the spec's git-flow scenario, `release/1.0.0` is
classified protected. -/
theorem isBranchProtected_witness :
    isBranchProtected "release/1.0.0"
      ⟨.gitFlow, .maintainer, "main", some "develop", "upstream", "origin"⟩ = true := by
  have h := isBranchProtected_iff
    ⟨.gitFlow, .maintainer, "main", some "develop", "upstream", "origin"⟩
    "release/1.0.0" ⟨"develop", rfl, by decide⟩
  exact h.mpr (Or.inr (Or.inr ⟨"release/", by decide, by decide⟩))

/-- C7: for a well-formed config, `getSyncSource` picks the upstream
remote for contributors and the origin remote otherwise, its ref is
`remote/baseBranch` with the base branch being `devBranch` for
clean-flow/git-flow and `mainBranch` for github-flow, and its strategy
is always `pull`. -/
theorem getSyncSource_spec (config : ContributeConfig) (hwf : WellFormed config) :
    (getSyncSource config).remote =
      (if config.role = Role.contributor then config.upstream else config.origin) ∧
    (getSyncSource config).ref =
      (getSyncSource config).remote ++ "/" ++ getBaseBranch config ∧
    (getSyncSource config).strategy = SyncStrategy.pull ∧
    (config.workflow = WorkflowMode.githubFlow →
      getBaseBranch config = config.mainBranch) ∧
    (config.workflow ≠ WorkflowMode.githubFlow →
      config.devBranch = some (getBaseBranch config)) := by
  obtain ⟨wf, role, main, dev, up, og⟩ := config
  cases wf <;> simp only [WellFormed] at hwf
  case cleanFlow =>
    obtain ⟨d, rfl, hd⟩ := hwf
    cases role <;> simp [getSyncSource, getBaseBranch]
  case githubFlow =>
    subst hwf
    cases role <;> simp [getSyncSource, getBaseBranch]
  case gitFlow =>
    obtain ⟨d, rfl, hd⟩ := hwf
    cases role <;> simp [getSyncSource, getBaseBranch]

/-- Witness for C7: a clean-flow contributor config syncs from
`upstream/dev` by pulling. -/
theorem getSyncSource_witness :
    (getSyncSource ⟨.cleanFlow, .contributor, "main", some "dev", "up", "og"⟩).remote =
        (if (Role.contributor = Role.contributor) then "up" else "og") ∧
      (getSyncSource ⟨.cleanFlow, .contributor, "main", some "dev", "up", "og"⟩).ref =
        (getSyncSource ⟨.cleanFlow, .contributor, "main", some "dev", "up", "og"⟩).remote ++
          "/" ++ getBaseBranch ⟨.cleanFlow, .contributor, "main", some "dev", "up", "og"⟩ ∧
      (getSyncSource ⟨.cleanFlow, .contributor, "main", some "dev", "up", "og"⟩).strategy =
        SyncStrategy.pull ∧
      (WorkflowMode.cleanFlow = WorkflowMode.githubFlow →
        getBaseBranch ⟨.cleanFlow, .contributor, "main", some "dev", "up", "og"⟩ = "main") ∧
      (WorkflowMode.cleanFlow ≠ WorkflowMode.githubFlow →
        (some "dev" : Option String) =
          some (getBaseBranch ⟨.cleanFlow, .contributor, "main", some "dev", "up", "og"⟩)) :=
  getSyncSource_spec ⟨.cleanFlow, .contributor, "main", some "dev", "up", "og"⟩
    ⟨"dev", rfl, by decide⟩

/-- C3 counterexample: validation succeeds on a grouping that omits a
changed file (`b.ts` appears in no group), so the union of the returned
groups' files is a strict subset of the changed-file set — the claimed
partition invariant does not hold after successful validation. -/
theorem validateGroups_partition_counterexample :
    runGroupValidation [⟨["a.ts"], "m"⟩] ["a.ts", "b.ts"] =
        some [⟨["a.ts"], "m"⟩] ∧
      ¬ GroupsPartitionChanged
          (validateGroups [⟨["a.ts"], "m"⟩] ["a.ts", "b.ts"]) ["a.ts", "b.ts"] := by
  constructor
  · decide
  · unfold GroupsPartitionChanged
    decide

/-- C3 amended: after validation succeeds, every returned group is
nonempty and contains only files of the changed-file set (so the union
of the groups' files is a subset of it); the validator does not
guarantee that every changed file appears in a group, nor that a file
appears in only one group. -/
theorem validateGroups_sound (groups : List CommitGroup)
    (changedFiles : List String) (g : CommitGroup)
    (hg : g ∈ validateGroups groups changedFiles) :
    g.files ≠ [] ∧ ∀ f ∈ g.files, f ∈ changedFiles := by
  unfold validateGroups at hg
  rw [List.mem_filter] at hg
  obtain ⟨hmem, hlen⟩ := hg
  constructor
  · intro hnil
    rw [hnil] at hlen
    simp at hlen
  · rw [List.mem_map] at hmem
    obtain ⟨g0, _, rfl⟩ := hmem
    intro f hf
    rw [List.mem_filter] at hf
    have := hf.2
    simpa using this

/-- Witness for C3's amended theorem, at the spec's own scenario: the
surviving group `{files: ["a.ts"], message: "m"}` is nonempty and only
mentions changed files. -/
theorem validateGroups_sound_witness :
    (⟨["a.ts"], "m"⟩ : CommitGroup).files ≠ [] ∧
      ∀ f ∈ (⟨["a.ts"], "m"⟩ : CommitGroup).files, f ∈ ["a.ts"] :=
  validateGroups_sound [⟨["a.ts", "ghost.ts"], "m"⟩] ["a.ts"] ⟨["a.ts"], "m"⟩
    (by decide)

/-- C4: the source's validation pipeline coincides with the spec's
three steps — strip unknown files from each group (preserving message
and the order and multiplicity of surviving files), drop groups left
empty, and fail hard (no fallback) when nothing remains. -/
theorem runGroupValidation_eq_specValidate (groups : List CommitGroup)
    (changedFiles : List String) :
    runGroupValidation groups changedFiles = specValidate groups changedFiles := by
  unfold runGroupValidation specValidate validateGroups
  have hmap : (groups.map fun g =>
      { g with files := g.files.filter fun f => changedFiles.contains f }) =
      groups.map fun g =>
        { g with files := g.files.filter fun f => decide (f ∈ changedFiles) } := by
    apply List.map_congr_left
    intro g _
    congr 1
    apply List.filter_congr
    intro f _
    simp [List.elem_eq_mem]
  rw [hmap]
  have hfil : ((groups.map fun g =>
      { g with files := g.files.filter fun f => decide (f ∈ changedFiles) }).filter
        fun g => g.files.length > 0) =
      (groups.map fun g =>
        { g with files := g.files.filter fun f => decide (f ∈ changedFiles) }).filter
        fun g => !g.files.isEmpty := by
    apply List.filter_congr
    intro g _
    cases h : g.files <;> simp [h]
  rw [hfil]
  by_cases h : ((groups.map fun g =>
      { g with files := g.files.filter fun f => decide (f ∈ changedFiles) }).filter
        fun g => !g.files.isEmpty) = []
  · simp [h]
  · simp [h, List.length_eq_zero, List.isEmpty_iff]

/-- A pair is a plain-delete entry of the deletion plan iff its branch
is a merged candidate. -/
lemma pair_plain_mem_deletionPlan (config : ContributeConfig) (env : CleanEnv)
    (b : String) :
    (b, DeleteMode.plain) ∈ deletionPlan config env ↔
      b ∈ mergedCandidates config env := by
  unfold deletionPlan
  rw [List.mem_append]
  constructor
  · rintro (h | h) <;> rw [List.mem_map] at h <;> obtain ⟨x, hx, hEq⟩ := h
    · cases hEq
      exact hx
    · cases hEq
  · intro h
    exact Or.inl (List.mem_map.mpr ⟨b, h, rfl⟩)

/-- A pair is a force-delete entry of the deletion plan iff its branch
is a gone/PR-merged candidate. -/
lemma pair_force_mem_deletionPlan (config : ContributeConfig) (env : CleanEnv)
    (b : String) :
    (b, DeleteMode.force) ∈ deletionPlan config env ↔
      b ∈ goneCandidates config env := by
  unfold deletionPlan
  rw [List.mem_append]
  constructor
  · rintro (h | h) <;> rw [List.mem_map] at h <;> obtain ⟨x, hx, hEq⟩ := h
    · cases hEq
    · cases hEq
      exact hx
  · intro h
    exact Or.inr (List.mem_map.mpr ⟨b, h, rfl⟩)

/-- Membership in the merged candidates: merged and not protected. -/
lemma mem_mergedCandidates (config : ContributeConfig) (env : CleanEnv)
    (b : String) :
    b ∈ mergedCandidates config env ↔
      b ∈ env.mergedBranches ∧ ¬ b ∈ getProtectedBranches config := by
  unfold mergedCandidates
  rw [List.mem_filter]
  simp [List.elem_eq_mem]

/-- Membership in the filter step of the gone candidates. -/
lemma mem_goneCandidatesBase (config : ContributeConfig) (env : CleanEnv)
    (b : String) :
    b ∈ goneCandidatesBase config env ↔
      b ∈ env.goneBranches ∧ ¬ b ∈ getProtectedBranches config ∧
        ¬ b ∈ mergedCandidates config env := by
  unfold goneCandidatesBase
  rw [List.mem_filter]
  simp [List.elem_eq_mem]

/-- The filter step is contained in the gone candidates. -/
lemma goneCandidatesBase_subset (config : ContributeConfig) (env : CleanEnv)
    (b : String) (hb : b ∈ goneCandidatesBase config env) :
    b ∈ goneCandidates config env := by
  unfold goneCandidates
  cases env.currentBranch with
  | none => exact hb
  | some cur =>
      dsimp only
      split
      · exact List.mem_append_left _ hb
      · exact hb

/-- C5: in the branch-cleaning flow, a non-protected candidate detected
only through a gone tracking ref, or only through a merged PR reported
for the current branch, is force-deleted (`git branch -D`), while a
candidate detected through `git branch --merged` is plain-deleted
(`git branch -d`). -/
theorem cleanDeletionPlan_modes (config : ContributeConfig) (env : CleanEnv)
    (b : String) :
    (b ∈ env.goneBranches → ¬ b ∈ getProtectedBranches config →
      ¬ b ∈ env.mergedBranches →
      ((b, DeleteMode.force) ∈ deletionPlan config env ∧
        ¬ (b, DeleteMode.plain) ∈ deletionPlan config env)) ∧
    (env.currentBranch = some b → env.ghAvailable = true →
      env.currentBranchHasMergedPR = true →
      ¬ b ∈ getProtectedBranches config → ¬ b ∈ env.mergedBranches →
      ¬ b ∈ env.goneBranches →
      ((b, DeleteMode.force) ∈ deletionPlan config env ∧
        ¬ (b, DeleteMode.plain) ∈ deletionPlan config env)) ∧
    (b ∈ env.mergedBranches → ¬ b ∈ getProtectedBranches config →
      ((b, DeleteMode.plain) ∈ deletionPlan config env ∧
        ¬ (b, DeleteMode.force) ∈ deletionPlan config env)) := by
  refine ⟨?_, ?_, ?_⟩
  · intro hg hp hm
    have hnm : ¬ b ∈ mergedCandidates config env := by
      rw [mem_mergedCandidates]
      tauto
    constructor
    · rw [pair_force_mem_deletionPlan]
      exact goneCandidatesBase_subset config env b
        ((mem_goneCandidatesBase config env b).mpr ⟨hg, hp, hnm⟩)
    · rw [pair_plain_mem_deletionPlan]
      exact hnm
  · intro hcur hgh hpr hp hm hgone
    have hnm : ¬ b ∈ mergedCandidates config env := by
      rw [mem_mergedCandidates]
      tauto
    have hnbase : ¬ b ∈ goneCandidatesBase config env := by
      rw [mem_goneCandidatesBase]
      tauto
    constructor
    · rw [pair_force_mem_deletionPlan]
      unfold goneCandidates
      rw [hcur]
      dsimp only
      rw [if_pos]
      · exact List.mem_append_right _ (List.mem_singleton.mpr rfl)
      · simp only [Bool.and_eq_true, Bool.not_eq_true', hgh, hpr, and_true]
        refine ⟨⟨?_, ?_⟩, ?_⟩ <;>
          simp [List.elem_eq_mem, hp, hnm, hnbase]
    · rw [pair_plain_mem_deletionPlan]
      exact hnm
  · intro hm hp
    have hmc : b ∈ mergedCandidates config env :=
      (mem_mergedCandidates config env b).mpr ⟨hm, hp⟩
    constructor
    · rw [pair_plain_mem_deletionPlan]
      exact hmc
    · rw [pair_force_mem_deletionPlan]
      intro hgc
      unfold goneCandidates at hgc
      have hnbase : ¬ b ∈ goneCandidatesBase config env := by
        rw [mem_goneCandidatesBase]
        tauto
      cases hcb : env.currentBranch with
      | none =>
          rw [hcb] at hgc
          exact hnbase hgc
      | some cur =>
          rw [hcb] at hgc
          dsimp only at hgc
          split at hgc
          · rcases List.mem_append.mp hgc with h | h
            · exact hnbase h
            · have hbc : b = cur := List.mem_singleton.mp h
              subst hbc
              rename_i hcond
              simp [List.elem_eq_mem] at hcond
              tauto
          · exact hnbase hgc

/-- Witness for C5: the spec's scenario — `old-branch` has a gone
tracking ref and no merge commit into base, so its planned deletion is
a force delete and not a plain delete. -/
theorem cleanDeletionPlan_modes_witness :
    ((("old-branch", DeleteMode.force) ∈
        deletionPlan ⟨.cleanFlow, .maintainer, "main", some "dev", "up", "og"⟩
          ⟨[], ["old-branch"], some "dev", false, false⟩) ∧
      ¬ (("old-branch", DeleteMode.plain) ∈
        deletionPlan ⟨.cleanFlow, .maintainer, "main", some "dev", "up", "og"⟩
          ⟨[], ["old-branch"], some "dev", false, false⟩)) :=
  (cleanDeletionPlan_modes
    ⟨.cleanFlow, .maintainer, "main", some "dev", "up", "og"⟩
    ⟨[], ["old-branch"], some "dev", false, false⟩ "old-branch").1
    (by decide) (by decide) (by decide)

/-- C9: `assertCleanGitState` fails exactly when the inspected state
has a lock file or an in-progress operation, the failure kind names the
detected condition (the lock file taking priority), and a shallow
repository alone only sets the non-fatal warning flag of a successful
outcome; the function is a pure read of the snapshot, so it performs no
mutation on any path. -/
theorem assertCleanGitState_spec (env : GitFsEnv) :
    ((∃ k, assertCleanGitState env = .fatal k) ↔
      (checkGitState env).lockFile = true ∨
        (checkGitState env).inProgressOp ≠ none) ∧
    ((checkGitState env).lockFile = true →
      assertCleanGitState env = .fatal .lockFile) ∧
    (∀ op, (checkGitState env).lockFile = false →
      (checkGitState env).inProgressOp = some op →
      assertCleanGitState env = .fatal (.inProgress op)) ∧
    ((checkGitState env).lockFile = false →
      (checkGitState env).inProgressOp = none →
      assertCleanGitState env = .ok env.shallow) := by
  unfold assertCleanGitState
  cases hl : (checkGitState env).lockFile
  · cases hop : (checkGitState env).inProgressOp
    · simp [hl, hop]
    · simp [hl, hop]
  · simp [hl]

/-- Witness for C9: a repository with a lock file fails with the
`lockFile` kind; the same instantiation also records that a merely
shallow repository would succeed. -/
theorem assertCleanGitState_spec_witness :
    assertCleanGitState
        ⟨some ".git", fun p => p = ".git/index.lock", true⟩ =
      .fatal .lockFile :=
  (assertCleanGitState_spec
    ⟨some ".git", fun p => p = ".git/index.lock", true⟩).2.1 (by decide)

/-- A string has length zero iff it is the empty string. -/
lemma length_eq_zero_iff_eq_empty (s : String) : s.length = 0 ↔ s = "" := by
  constructor
  · intro h
    apply String.ext
    exact List.length_eq_zero.mp h
  · rintro rfl
    rfl

/-- C10: `hasUncommittedChanges` fails safe toward reporting work — it
is `false` exactly when the status query exited zero with empty trimmed
output, any query failure yields `true`, and `hasLocalWork` exposes
that answer unchanged as its `uncommitted` field. -/
theorem hasUncommittedChanges_fail_safe (statusResult : GitResult) :
    (hasUncommittedChanges statusResult = false ↔
      statusResult.exitCode = 0 ∧ jsTrim statusResult.stdout = "") ∧
    (statusResult.exitCode ≠ 0 → hasUncommittedChanges statusResult = true) ∧
    (∀ revListResult : GitResult,
      (hasLocalWork statusResult revListResult).uncommitted =
        hasUncommittedChanges statusResult) := by
  refine ⟨?_, ?_, fun _ => rfl⟩
  · unfold hasUncommittedChanges
    by_cases h : statusResult.exitCode = 0
    · simp [h, length_eq_zero_iff_eq_empty, Nat.pos_iff_ne_zero]
    · simp [h]
  · intro h
    unfold hasUncommittedChanges
    simp [h]

/-- Witness for C10: a failing `git status --porcelain` (exit code 1)
reports uncommitted changes. -/
theorem hasUncommittedChanges_fail_safe_witness :
    hasUncommittedChanges ⟨1, "", ""⟩ = true :=
  (hasUncommittedChanges_fail_safe ⟨1, "", ""⟩).2.1 (by decide)

/-- `Nat.digitChar` sends a value below ten to a decimal digit
character. -/
lemma digitChar_isDigit : ∀ n < 10, (Nat.digitChar n).isDigit = true := by
  decide

/-- Decoding a decimal digit character recovers the digit. -/
lemma digitChar_val : ∀ n < 10, charDigitVal (Nat.digitChar n) = n := by
  decide

/-- A decimal digit character is not whitespace. -/
lemma isDigit_not_ws (c : Char) (h : c.isDigit = true) : isWsChar c = false := by
  by_contra hw
  rw [Bool.not_eq_false] at hw
  unfold isWsChar at hw
  simp only [Bool.or_eq_true, decide_eq_true_eq] at hw
  rcases hw with ((rfl | rfl) | rfl) | rfl <;> exact absurd h (by decide)

/-- A decimal digit character is not a sign character. -/
lemma isDigit_ne_sign (c : Char) (h : c.isDigit = true) : c ≠ '-' ∧ c ≠ '+' := by
  constructor <;> rintro rfl <;> exact absurd h (by decide)

/-- Every character produced by `natDigitsRevFuel` is a decimal digit. -/
lemma natDigitsRevFuel_isDigit :
    ∀ fuel n c, c ∈ natDigitsRevFuel fuel n → c.isDigit = true := by
  intro fuel
  induction fuel with
  | zero =>
      intro n c hc
      simp [natDigitsRevFuel] at hc
  | succ fuel ih =>
      intro n c hc
      unfold natDigitsRevFuel at hc
      by_cases h : n < 10
      · rw [if_pos h] at hc
        rw [List.mem_singleton] at hc
        subst hc
        exact digitChar_isDigit n h
      · rw [if_neg h] at hc
        rcases List.mem_cons.mp hc with rfl | hc
        · exact digitChar_isDigit _ (Nat.mod_lt _ (by norm_num))
        · exact ih _ _ hc

/-- With positive fuel, `natDigitsRevFuel` produces at least one
character. -/
lemma natDigitsRevFuel_ne_nil (fuel n : Nat) (h : 0 < fuel) :
    natDigitsRevFuel fuel n ≠ [] := by
  cases fuel with
  | zero => exact absurd h (by simp)
  | succ fuel =>
      unfold natDigitsRevFuel
      by_cases h10 : n < 10 <;> simp [h10]

/-- Appending one digit multiplies the decoded value by ten. -/
lemma digitsToNat_append (xs : List Char) (c : Char) :
    digitsToNat (xs ++ [c]) = digitsToNat xs * 10 + charDigitVal c := by
  unfold digitsToNat
  rw [List.foldl_append]
  rfl

/-- Decoding inverts rendering: the digits of `n` (given enough fuel)
decode back to `n`. -/
lemma digitsToNat_natDigitsRevFuel :
    ∀ fuel n, n < 10 ^ fuel →
      digitsToNat (natDigitsRevFuel fuel n).reverse = n := by
  intro fuel
  induction fuel with
  | zero =>
      intro n hn
      have : n = 0 := by simpa using hn
      subst this
      rfl
  | succ fuel ih =>
      intro n hn
      unfold natDigitsRevFuel
      by_cases h10 : n < 10
      · rw [if_pos h10]
        show digitsToNat [Nat.digitChar n] = n
        show 0 * 10 + charDigitVal (Nat.digitChar n) = n
        rw [digitChar_val n h10]
        omega
      · rw [if_neg h10]
        rw [List.reverse_cons, digitsToNat_append]
        have hdiv : n / 10 < 10 ^ fuel := by
          rw [pow_succ] at hn
          exact (Nat.div_lt_iff_lt_mul (by norm_num)).mpr hn
        rw [ih (n / 10) hdiv, digitChar_val (n % 10) (Nat.mod_lt _ (by norm_num))]
        omega

/-- `takeWhile` keeps a list all of whose elements satisfy the
predicate. -/
lemma takeWhile_of_all {α : Type} {p : α → Bool} :
    ∀ l : List α, (∀ c ∈ l, p c = true) → l.takeWhile p = l := by
  intro l h
  induction l with
  | nil => rfl
  | cons c t ih =>
      rw [List.takeWhile_cons, h c (List.mem_cons_self c t)]
      rw [ih fun d hd => h d (List.mem_cons_of_mem c hd)]
      simp

/-- `jsParseInt` on a nonempty all-digit string decodes its decimal
value. -/
lemma jsParseInt_all_digits (ds : List Char) (hne : ds ≠ [])
    (hdig : ∀ c ∈ ds, c.isDigit = true) :
    jsParseInt (String.mk ds) = some (digitsToNat ds : Int) := by
  obtain ⟨c, t, rfl⟩ := List.exists_cons_of_ne_nil hne
  have hc : c.isDigit = true := hdig c (List.mem_cons_self c t)
  have hsign := isDigit_ne_sign c hc
  have h1 : (some c == some '-') = false := by
    rw [beq_eq_false_iff_ne]
    simp [hsign.1]
  have h2 : (some c == some '+') = false := by
    rw [beq_eq_false_iff_ne]
    simp [hsign.2]
  unfold jsParseInt
  have hdw : (String.mk (c :: t)).data.dropWhile isWsChar = c :: t := by
    show (c :: t).dropWhile isWsChar = c :: t
    rw [List.dropWhile_cons, isDigit_not_ws c hc]
    simp
  rw [hdw]
  simp only [List.head?_cons, h1, h2, Bool.or_self, Bool.false_eq_true,
    if_false]
  rw [takeWhile_of_all (c :: t) hdig]
  simp

/-- `jsParseInt` inverts `natToString`. -/
lemma jsParseInt_natToString (n : Nat) :
    jsParseInt (natToString n) = some (n : Int) := by
  unfold natToString
  rw [jsParseInt_all_digits _ ?hne ?hdig]
  case hne =>
    simp only [ne_eq, List.reverse_eq_nil_iff]
    exact natDigitsRevFuel_ne_nil _ _ (Nat.succ_pos n)
  case hdig =>
    intro c hc
    exact natDigitsRevFuel_isDigit _ _ _ (List.mem_reverse.mp hc)
  have hlt : n < 10 ^ (n + 1) :=
    lt_of_lt_of_le (Nat.lt_pow_self (by norm_num) n)
      (Nat.pow_le_pow_right (by norm_num) (Nat.le_succ n))
  rw [digitsToNat_natDigitsRevFuel (n + 1) n hlt]

/-- `splitWsAux` on a whitespace-free remainder yields one token. -/
lemma splitWsAux_no_ws :
    ∀ (xs cur : List Char) (b : Bool), (∀ c ∈ xs, isWsChar c = false) →
      splitWsAux xs cur b = [cur.reverse ++ xs] := by
  intro xs
  induction xs with
  | nil =>
      intro cur b _
      simp [splitWsAux]
  | cons c t ih =>
      intro cur b h
      unfold splitWsAux
      rw [h c (List.mem_cons_self c t)]
      show splitWsAux t (c :: cur) false = _
      rw [ih (c :: cur) false fun d hd => h d (List.mem_cons_of_mem c hd)]
      simp

/-- `splitWsAux` on two whitespace-free runs separated by a tab yields
exactly the two tokens. -/
lemma splitWsAux_two_runs (dB : List Char)
    (hB : ∀ c ∈ dB, isWsChar c = false) :
    ∀ (dA cur : List Char), (∀ c ∈ dA, isWsChar c = false) →
      splitWsAux (dA ++ '\t' :: dB) cur false = [cur.reverse ++ dA, dB] := by
  intro dA
  induction dA with
  | nil =>
      intro cur _
      rw [List.nil_append]
      show splitWsAux ('\t' :: dB) cur false = _
      unfold splitWsAux
      rw [show isWsChar '\t' = true from by decide]
      show cur.reverse :: splitWsAux dB [] true = _
      rw [splitWsAux_no_ws dB [] true hB]
      simp
  | cons c t ih =>
      intro cur h
      rw [List.cons_append]
      unfold splitWsAux
      rw [h c (List.mem_cons_self c t)]
      show splitWsAux (t ++ '\t' :: dB) (c :: cur) false = _
      rw [ih (c :: cur) fun d hd => h d (List.mem_cons_of_mem c hd)]
      simp

/-- `splitWs` on `"A\tB"` with whitespace-free `A` and `B` yields
`[A, B]`. -/
lemma splitWs_two_tokens (dL dR : List Char)
    (hL : ∀ c ∈ dL, isWsChar c = false) (hR : ∀ c ∈ dR, isWsChar c = false) :
    splitWs (String.mk dL ++ "\t" ++ String.mk dR) =
      [String.mk dL, String.mk dR] := by
  unfold splitWs
  have hdata : (String.mk dL ++ "\t" ++ String.mk dR).data =
      dL ++ '\t' :: dR := by
    show (dL ++ "\t".data) ++ dR = dL ++ '\t' :: dR
    rw [List.append_assoc]
    rfl
  rw [hdata, splitWsAux_two_runs dR hR dL [] hL]
  simp

/-- C8: `getDivergence` maps a failed symmetric-difference count query
to `{ahead: 0, behind: 0}` instead of an error, and on a successful
query whose trimmed output is `"L R"` it reports `behind = L` (commits
only in the base ref) and `ahead = R` (commits only in the local ref). -/
theorem getDivergence_spec (revListResult : GitResult) :
    (revListResult.exitCode ≠ 0 →
      getDivergence revListResult = ⟨some 0, some 0⟩) ∧
    (∀ L R : Nat, revListResult.exitCode = 0 →
      jsTrim revListResult.stdout = natToString L ++ "\t" ++ natToString R →
      getDivergence revListResult = ⟨some (R : Int), some (L : Int)⟩) := by
  constructor
  · intro h
    unfold getDivergence
    rw [if_pos h]
  · intro L R h0 htrim
    unfold getDivergence
    rw [if_neg (by simp [h0])]
    rw [htrim]
    show (let parts :=
        splitWs (natToString L ++ "\t" ++ natToString R); _ : Divergence) = _
    have hL : ∀ c ∈ (natDigitsRevFuel (L + 1) L).reverse, isWsChar c = false :=
      fun c hc =>
        isDigit_not_ws c (natDigitsRevFuel_isDigit _ _ _ (List.mem_reverse.mp hc))
    have hR : ∀ c ∈ (natDigitsRevFuel (R + 1) R).reverse, isWsChar c = false :=
      fun c hc =>
        isDigit_not_ws c (natDigitsRevFuel_isDigit _ _ _ (List.mem_reverse.mp hc))
    rw [show (natToString L ++ "\t" ++ natToString R) =
        (String.mk (natDigitsRevFuel (L + 1) L).reverse ++ "\t" ++
          String.mk (natDigitsRevFuel (R + 1) R).reverse) from rfl]
    rw [splitWs_two_tokens _ _ hL hR]
    show Divergence.mk
        (jsParseInt ([String.mk (natDigitsRevFuel (L + 1) L).reverse,
          String.mk (natDigitsRevFuel (R + 1) R).reverse].getD 1 "0"))
        (jsParseInt ([String.mk (natDigitsRevFuel (L + 1) L).reverse,
          String.mk (natDigitsRevFuel (R + 1) R).reverse].getD 0 "0")) = _
    have hgl : jsParseInt (natToString L) = some (L : Int) := jsParseInt_natToString L
    have hgr : jsParseInt (natToString R) = some (R : Int) := jsParseInt_natToString R
    simp only [List.getD_cons_zero, List.getD_cons_succ]
    rw [show String.mk (natDigitsRevFuel (L + 1) L).reverse = natToString L from rfl]
    rw [show String.mk (natDigitsRevFuel (R + 1) R).reverse = natToString R from rfl]
    rw [hgl, hgr]

/-- Witness for C8: a successful query printing `3 15` yields
`behind = 3` and `ahead = 15`. -/
theorem getDivergence_spec_witness :
    getDivergence ⟨0, "3\t15\n", ""⟩ =
      ⟨some (15 : Int), some (3 : Int)⟩ :=
  (getDivergence_spec ⟨0, "3\t15\n", ""⟩).2 3 15 (by decide) (by decide)

end ContributeNow
